import Mathlib

/-!
# Verification of the serverless-executor event orchestrator

Shallow embedding of `src/event_handler.rs` (crate `oyster-serverless-executor`).

Modelling conventions:
* Machine integers (`U64`, `U256`, `u8`, addresses `H160`, hashes `H256`) are
  `Nat`; overflow never occurs in the modelled operations because the code only
  compares, stores and forwards these values.
* A log's raw `data` bytes are represented by the list of ABI tokens they
  decode to; `abi_decode` checks the requested parameter layout against that
  list, mirroring ethabi's `decode` which either fails or returns exactly one
  token of each requested type.
* Rust panics (out-of-bounds `Vec` indexing, `Option::unwrap` on `None`) are
  modelled as `Option.none` results ("the process dies"); a `continue` that
  skips a log is an `Option.some` result with no state change.
* The async streams are modelled by the finite lists of items they yield; the
  `select!` nondeterminism is captured by quantifying over all interleavings
  of the two streams.
* Spawned tasks (`handle_timeout`, `handle_job`) and on-chain transactions are
  recorded as values rather than executed; logging (`println!`/`eprintln!`)
  has no observable effect and is dropped.
-/

namespace Serverless

/-! ## ABI tokens and decoding (ethers `ethabi` fragment used by the code) -/

/-- The subset of `ethabi::ParamType` occurring in the two Jobs-contract
events decoded by `handle_event_logs`. -/
inductive ParamType where
  | FixedBytes (n : Nat)
  | Bytes
  | Uint (n : Nat)
  | Address
  | Array (t : ParamType)
deriving DecidableEq, Repr

/-- The subset of `ethabi::Token` the above parameter types can decode to. -/
inductive Token where
  | FixedBytes (b : List Nat)
  | Bytes (b : List Nat)
  | Uint (v : Nat)
  | Address (a : Nat)
  | Array (ts : List Token)

mutual

/-- Boolean equality on tokens (the derive handler does not support the
nested `List Token` occurrence, so it is spelled out). -/
def Token.beq : Token → Token → Bool
  | Token.FixedBytes a, Token.FixedBytes b => a == b
  | Token.Bytes a, Token.Bytes b => a == b
  | Token.Uint a, Token.Uint b => a == b
  | Token.Address a, Token.Address b => a == b
  | Token.Array a, Token.Array b => Token.listBeq a b
  | _, _ => false

/-- Boolean equality on token lists. -/
def Token.listBeq : List Token → List Token → Bool
  | [], [] => true
  | x :: xs, y :: ys => Token.beq x y && Token.listBeq xs ys
  | _, _ => false

end

mutual

theorem Token.beq_iff : ∀ a b : Token, Token.beq a b = true ↔ a = b
  | Token.FixedBytes a, Token.FixedBytes b => by
    simp [Token.beq]
  | Token.FixedBytes _, Token.Bytes _ => by simp [Token.beq]
  | Token.FixedBytes _, Token.Uint _ => by simp [Token.beq]
  | Token.FixedBytes _, Token.Address _ => by simp [Token.beq]
  | Token.FixedBytes _, Token.Array _ => by simp [Token.beq]
  | Token.Bytes _, Token.FixedBytes _ => by simp [Token.beq]
  | Token.Bytes a, Token.Bytes b => by simp [Token.beq]
  | Token.Bytes _, Token.Uint _ => by simp [Token.beq]
  | Token.Bytes _, Token.Address _ => by simp [Token.beq]
  | Token.Bytes _, Token.Array _ => by simp [Token.beq]
  | Token.Uint _, Token.FixedBytes _ => by simp [Token.beq]
  | Token.Uint _, Token.Bytes _ => by simp [Token.beq]
  | Token.Uint a, Token.Uint b => by simp [Token.beq]
  | Token.Uint _, Token.Address _ => by simp [Token.beq]
  | Token.Uint _, Token.Array _ => by simp [Token.beq]
  | Token.Address _, Token.FixedBytes _ => by simp [Token.beq]
  | Token.Address _, Token.Bytes _ => by simp [Token.beq]
  | Token.Address _, Token.Uint _ => by simp [Token.beq]
  | Token.Address a, Token.Address b => by simp [Token.beq]
  | Token.Address _, Token.Array _ => by simp [Token.beq]
  | Token.Array _, Token.FixedBytes _ => by simp [Token.beq]
  | Token.Array _, Token.Bytes _ => by simp [Token.beq]
  | Token.Array _, Token.Uint _ => by simp [Token.beq]
  | Token.Array _, Token.Address _ => by simp [Token.beq]
  | Token.Array a, Token.Array b => by
    simp only [Token.beq, Token.Array.injEq]
    exact Token.listBeq_iff a b

theorem Token.listBeq_iff : ∀ a b : List Token, Token.listBeq a b = true ↔ a = b
  | [], [] => by simp [Token.listBeq]
  | [], _ :: _ => by simp [Token.listBeq]
  | _ :: _, [] => by simp [Token.listBeq]
  | x :: xs, y :: ys => by
    simp only [Token.listBeq, Bool.and_eq_true, List.cons.injEq]
    exact and_congr (Token.beq_iff x y) (Token.listBeq_iff xs ys)

end

instance : DecidableEq Token := fun a b =>
  decidable_of_iff (Token.beq a b = true) (Token.beq_iff a b)

mutual

/-- Does a token have the given parameter type?  (ethabi's decoder returns,
on success, tokens of exactly the requested types, with `Uint n` values in
range.) -/
def Token.hasTypeB : Token → ParamType → Bool
  | Token.FixedBytes b, ParamType.FixedBytes n => b.length == n
  | Token.Bytes _, ParamType.Bytes => true
  | Token.Uint v, ParamType.Uint n => decide (v < 2 ^ n)
  | Token.Address _, ParamType.Address => true
  | Token.Array ts, ParamType.Array t => Token.listHasTypeB ts t
  | _, _ => false

/-- All tokens of a list have the given parameter type (array elements). -/
def Token.listHasTypeB : List Token → ParamType → Bool
  | [], _ => true
  | x :: xs, t => Token.hasTypeB x t && Token.listHasTypeB xs t

end

/-- `Token::into_fixed_bytes`. -/
def Token.into_fixed_bytes : Token → Option (List Nat)
  | Token.FixedBytes b => some b
  | _ => none

/-- `Token::into_bytes`. -/
def Token.into_bytes : Token → Option (List Nat)
  | Token.Bytes b => some b
  | _ => none

/-- `Token::into_uint`. -/
def Token.into_uint : Token → Option Nat
  | Token.Uint v => some v
  | _ => none

/-- `Token::into_address`. -/
def Token.into_address : Token → Option Nat
  | Token.Address a => some a
  | _ => none

/-- `Token::into_array`. -/
def Token.into_array : Token → Option (List Token)
  | Token.Array ts => some ts
  | _ => none

/-- Pointwise layout check: the i-th token has the i-th parameter type. -/
def tokensMatch : List ParamType → List Token → Bool
  | [], [] => true
  | p :: ps, t :: ts => Token.hasTypeB t p && tokensMatch ps ts
  | _, _ => false

/-- ethabi `decode(params, bytes)` over the token representation of the raw
bytes: succeeds (returning one token per requested parameter, of that type)
or fails as a whole. -/
def abi_decode (params : List ParamType) (data : List Token) : Option (List Token) :=
  if tokensMatch params data then some data else none

/-- Layout decoded for a `JobCreated` event
(`FixedBytes(32), Bytes, Uint(256), Array(Address)`, lines 240-248). -/
def jobCreatedParams : List ParamType :=
  [ParamType.FixedBytes 32, ParamType.Bytes, ParamType.Uint 256,
   ParamType.Array ParamType.Address]

/-- Layout decoded for a `JobResponded` event
(`Bytes, Uint(256), Uint(8), Uint(8)`, lines 337-345). -/
def jobRespondedParams : List ParamType :=
  [ParamType.Bytes, ParamType.Uint 256, ParamType.Uint 8, ParamType.Uint 8]

/-! ## Event-signature topic hashes

The code compares `topics[0]` against `keccak256` of four distinct canonical
signature strings.  Only (in)equality of these 256-bit constants matters, so
they are represented by four distinct naturals. -/

/-- keccak256 of `"JobCreated(uint256,address,bytes32,bytes,uint256,address[])"`. -/
def jobCreatedSig : Nat := 1

/-- keccak256 of `"JobResponded(uint256,bytes,uint256,uint8,uint8)"`. -/
def jobRespondedSig : Nat := 2

/-- keccak256 of `"ExecutorRegistered(address,address,uint256)"`. -/
def executorRegisteredSig : Nat := 3

/-- keccak256 of `"ExecutorDeregistered(address)"`. -/
def executorDeregisteredSig : Nat := 4

/-! ## Logs, configuration, listener state -/

/-- The fields of `ethers::types::Log` the orchestrator reads. -/
structure Log where
  removed : Option Bool
  block_number : Option Nat
  topics : List Nat
  data : List Token
deriving DecidableEq

/-- The immutable part of `AppState` the orchestrator reads (`enclave_owner`
is a mutex the orchestrator only ever reads, so it is a plain field here). -/
structure Config where
  enclave_address : Nat
  enclave_owner : Nat
  executors_contract_addr : Nat
  jobs_contract_addr : Nat
  num_selected_executors : Nat
deriving DecidableEq, Repr

/-- The mutable `AppState` fields written by the orchestrator core. -/
structure ListenerState where
  enclave_registered : Bool
  last_block_seen : Nat
  job_requests_running : Finset Nat
deriving DecidableEq

/-- A task spawned by the dispatcher (`tokio::spawn` of `handle_timeout`
lines 307-309, of `handle_job` lines 317-327).  The deadline is recorded as
the decoded 256-bit value; the spawned closures apply `.as_u64()` to it
themselves. -/
inductive SpawnedTask where
  | handle_timeout (job_id : Nat) (user_deadline : Nat)
  | handle_job (job_id : Nat) (code_hash : String) (code_inputs : List Nat)
      (user_deadline : Nat)
deriving DecidableEq, Repr

/-- One lowercase hex digit, as in `data_encoding::HEXLOWER`. -/
def hexDigitChar (n : Nat) : Char :=
  if n < 10 then Char.ofNat (48 + n) else Char.ofNat (87 + n)

/-- `data_encoding::HEXLOWER.encode` of a byte string. -/
def hexLowerEncode (bs : List Nat) : String :=
  String.join (bs.map fun b => String.mk [hexDigitChar (b / 16 % 16), hexDigitChar (b % 16)])

/-- The `code_hash` string built at lines 312-313:
`"0x" + HEXLOWER.encode(code_hash)`. -/
def codeHashHex (code_hash : List Nat) : String :=
  "0x" ++ hexLowerEncode code_hash

/-! ## The dispatcher's per-log processing (`handle_event_logs`) -/

/-- Result of processing one log from the jobs stream: the updated state, the
tasks spawned, and the values stored to `last_block_seen` (at most one), in
order. -/
structure JobsLogResult where
  state : ListenerState
  tasks : List SpawnedTask
  cursor_writes : List Nat
deriving DecidableEq

/-- Processing of one log from the jobs stream, `handle_event_logs`
lines 220-372.  `none` models a panic (out-of-bounds `topics` indexing);
`some` covers both a processed event and a skipped (`continue`) one. -/
def processJobsLog (cfg : Config) (st : ListenerState) (event : Log) :
    Option JobsLogResult :=
  if event.removed.getD true then some ⟨st, [], []⟩
  else
    match event.block_number with
    | none => some ⟨st, [], []⟩
    | some current_block =>
      if current_block < st.last_block_seen then some ⟨st, [], []⟩
      else
        let st := { st with last_block_seen := current_block }
        match event.topics[0]? with
        | none => none
        | some topic0 =>
          if topic0 = jobCreatedSig then
            match abi_decode jobCreatedParams event.data with
            | none => some ⟨st, [], [current_block]⟩
            | some event_tokens =>
              match event.topics[1]? with
              | none => none
              | some job_id =>
                match event_tokens[0]? with
                | none => none
                | some tk0 =>
                  match tk0.into_fixed_bytes with
                  | none => some ⟨st, [], [current_block]⟩
                  | some code_hash =>
                    match event_tokens[1]? with
                    | none => none
                    | some tk1 =>
                      match tk1.into_bytes with
                      | none => some ⟨st, [], [current_block]⟩
                      | some code_inputs =>
                        match event_tokens[2]? with
                        | none => none
                        | some tk2 =>
                          match tk2.into_uint with
                          | none => some ⟨st, [], [current_block]⟩
                          | some user_deadline =>
                            match event_tokens[3]? with
                            | none => none
                            | some tk3 =>
                              match tk3.into_array with
                              | none => some ⟨st, [], [current_block]⟩
                              | some selected_nodes =>
                                let st :=
                                  { st with
                                    job_requests_running :=
                                      insert job_id st.job_requests_running }
                                let is_node_selected :=
                                  ((selected_nodes.map Token.into_address).filter
                                    Option.isSome).any
                                    (fun addr => addr.getD 0 == cfg.enclave_address)
                                some ⟨st,
                                  SpawnedTask.handle_timeout job_id user_deadline ::
                                    (if is_node_selected then
                                      [SpawnedTask.handle_job job_id
                                        (codeHashHex code_hash) code_inputs
                                        user_deadline]
                                    else []),
                                  [current_block]⟩
          else if topic0 = jobRespondedSig then
            match event.topics[1]? with
            | none => none
            | some job_id =>
              match abi_decode jobRespondedParams event.data with
              | none => some ⟨st, [], [current_block]⟩
              | some event_tokens =>
                match event_tokens[3]? with
                | none => none
                | some tk3 =>
                  match tk3.into_uint with
                  | none => some ⟨st, [], [current_block]⟩
                  | some output_count =>
                    if output_count = cfg.num_selected_executors then
                      let st :=
                        { st with
                          job_requests_running :=
                            st.job_requests_running.erase job_id }
                      some ⟨st, [], [current_block]⟩
                    else some ⟨st, [], [current_block]⟩
          else some ⟨st, [], [current_block]⟩

/-- Processing of one log from the executors (deregistration) stream,
`handle_event_logs` lines 208-218.  The boolean is true when the dispatch
loop `return`s. -/
def processExecutorsLog (st : ListenerState) (event : Log) : ListenerState × Bool :=
  if event.removed.getD true then (st, false)
  else ({ st with enclave_registered := false }, true)

/-! ## The multiplexed dispatch loop (`handle_event_logs`, lines 198-378) -/

/-- One item yielded by the `select!` over the two subscriptions; a list of
these is one possible interleaving of the jobs stream and the executors
stream (the in-stream order is preserved, the cross-stream order is
arbitrary). -/
inductive StreamEvent where
  | jobs (event : Log)
  | executors (event : Log)
deriving DecidableEq

/-- How the dispatch loop ended: early `return` on deregistration
(line 218) or `break` when both streams are exhausted (line 373). -/
inductive LoopExit where
  | deregReturn
  | bothEnded
deriving DecidableEq, Repr

/-- Result of a full run of the dispatch loop. -/
structure LoopResult where
  state : ListenerState
  tasks : List SpawnedTask
  cursor_writes : List Nat
  exitKind : LoopExit
deriving DecidableEq

/-- `handle_event_logs` run over one interleaving of the two streams.
`none` models a panic while processing a jobs log. -/
def handle_event_logs (cfg : Config) (st : ListenerState) :
    List StreamEvent → Option LoopResult
  | [] => some ⟨st, [], [], LoopExit.bothEnded⟩
  | StreamEvent.executors event :: rest =>
    let r := processExecutorsLog st event
    if r.2 then some ⟨r.1, [], [], LoopExit.deregReturn⟩
    else handle_event_logs cfg r.1 rest
  | StreamEvent.jobs event :: rest =>
    match processJobsLog cfg st event with
    | none => none
    | some r =>
      (handle_event_logs cfg r.state rest).map fun lr =>
        ⟨lr.state, r.tasks ++ lr.tasks, r.cursor_writes ++ lr.cursor_writes,
         lr.exitKind⟩

/-! ## The registration gate (`events_listener`, lines 36-79) -/

/-- The registration-gate loop over the registration stream's logs
(lines 63-74), also returning the values stored to `last_block_seen` (one
store, on success).  It stops at the first non-removed log, setting
`enclave_registered` and storing the log's block number (or
`starting_block` when the log carries none). -/
def registration_gate (starting_block : Nat) (st : ListenerState) :
    List Log → ListenerState × List Nat
  | [] => (st, [])
  | event :: rest =>
    if event.removed.getD true then registration_gate starting_block st rest
    else
      ({ st with
          enclave_registered := true,
          last_block_seen := event.block_number.getD starting_block },
       [event.block_number.getD starting_block])

/-- The `ExecutorRegistered` log filter built by the gate (lines 38-45). -/
structure LogFilter where
  address : Nat
  topic0 : List Nat
  topic1 : Option Nat
  topic2 : Option Nat
  from_block : Nat
deriving DecidableEq, Repr

/-- `register_executor_filter` as built at lines 38-45: scoped to the
Executors contract, the `ExecutorRegistered` signature, the enclave address
(topic 1) and the current owner value (topic 2), starting at
`starting_block`. -/
def register_executor_filter (cfg : Config) (starting_block : Nat) : LogFilter :=
  { address := cfg.executors_contract_addr
    topic0 := [executorRegisteredSig]
    topic1 := some cfg.enclave_address
    topic2 := some cfg.enclave_owner
    from_block := starting_block }

/-! ## The reconnect supervisor (`events_listener`, lines 18-140) -/

/-- One iteration of the supervisor's outer `loop`:
* `connectFail` — the websocket connection (line 25) or the registration
  subscription (line 48) failed; the iteration has no effect.
* `conn regLogs dispatchEvents` — a live connection; `regLogs` is what the
  registration stream yields (consulted only while unregistered), and
  `dispatchEvents` is an interleaving of the jobs and executors streams
  (`none` when one of those two subscriptions (lines 91, 111) failed, which
  makes the iteration end after the gate has run). -/
inductive ConnAttempt where
  | connectFail
  | conn (regLogs : List Log) (dispatchEvents : Option (List StreamEvent))
deriving DecidableEq

/-- Result of a (truncated) run of `events_listener`: the final state, every
task spawned, every value stored to `last_block_seen` in order, the value
`last_block_seen` held each time the registration gate ran, and whether the
function returned (as opposed to still looping when the modelled attempts
ran out). -/
structure RunResult where
  state : ListenerState
  tasks : List SpawnedTask
  cursor_writes : List Nat
  gate_cursors : List Nat
  terminated : Bool
deriving DecidableEq

/-- `events_listener` run over a finite list of connection attempts.
`none` models a panic inside the dispatch loop. -/
def events_listener (cfg : Config) (starting_block : Nat) (st : ListenerState) :
    List ConnAttempt → Option RunResult
  | [] => some ⟨st, [], [], [], false⟩
  | ConnAttempt.connectFail :: rest => events_listener cfg starting_block st rest
  | ConnAttempt.conn regLogs dispatchEvents :: rest =>
    let gateStep :=
      if st.enclave_registered then (st, ([] : List Nat), ([] : List Nat))
      else
        let g := registration_gate starting_block st regLogs
        (g.1, g.2, [st.last_block_seen])
    let st1 := gateStep.1
    let gateWrites := gateStep.2.1
    let gateCursors := gateStep.2.2
    if st1.enclave_registered = false then
      -- the gate found no registration event: reconnect (line 77)
      (events_listener cfg starting_block st1 rest).map fun r =>
        ⟨r.state, r.tasks, gateWrites ++ r.cursor_writes,
         gateCursors ++ r.gate_cursors, r.terminated⟩
    else
      match dispatchEvents with
      | none =>
        -- a jobs/executors subscription failed: reconnect (lines 99, 122)
        (events_listener cfg starting_block st1 rest).map fun r =>
          ⟨r.state, r.tasks, gateWrites ++ r.cursor_writes,
           gateCursors ++ r.gate_cursors, r.terminated⟩
      | some events =>
        match handle_event_logs cfg st1 events with
        | none => none
        | some lr =>
          if lr.state.enclave_registered then
            -- stream exhaustion with the enclave still registered: loop again
            (events_listener cfg starting_block lr.state rest).map fun r =>
              ⟨r.state, lr.tasks ++ r.tasks,
               gateWrites ++ lr.cursor_writes ++ r.cursor_writes,
               gateCursors ++ r.gate_cursors, r.terminated⟩
          else
            -- deregistered: return from events_listener (lines 136-138)
            some ⟨lr.state, lr.tasks, gateWrites ++ lr.cursor_writes,
                  gateCursors, true⟩

/-! ## The response dispatcher (`send_execution_output`, lines 143-195) -/

/-- The execution-response payload carried by a completed job. -/
structure ExecutionResponse where
  output : List Nat
  total_time : Nat
  error_code : Nat
deriving DecidableEq

/-- `JobOutput` as consumed at lines 174-181. -/
structure JobOutput where
  signature : List Nat
  id : Nat
  execution_response : ExecutionResponse
  sign_timestamp : Nat
deriving DecidableEq

/-- `JobResponse` messages received on the outcome channel. -/
structure JobResponse where
  job_output : Option JobOutput
  timeout_response : Option Nat
deriving DecidableEq

/-- A transaction prepared for the Jobs contract. -/
inductive Txn where
  | slash_on_execution_timeout (job_id : Nat)
  | submit_output (signature : List Nat) (id : Nat) (output : List Nat)
      (total_time : Nat) (error_code : Nat) (sign_timestamp : Nat)
deriving DecidableEq

/-- `send_execution_output` over the (finite) contents of the outcome
channel until it closes.  `http_rpc_client` models the
`app_state.http_rpc_client` mutex contents; the `.unwrap()` on it
(lines 153, 172) panics when it is `None`, modelled as a `none` result.
`send_result` is the external transaction sender (`send_txn`): `false`
means the submission failed.  The returned list is every transaction that
was submitted, in order. -/
def send_execution_output (http_rpc_client : Option Unit)
    (send_result : Txn → Bool) : List JobResponse → Option (List Txn)
  | [] => some []
  | job_response :: rest =>
    match job_response.job_output with
    | none =>
      match job_response.timeout_response with
      | none => send_execution_output http_rpc_client send_result rest
      | some job_id =>
        match http_rpc_client with
        | none => none
        | some _ =>
          let txn := Txn.slash_on_execution_timeout job_id
          if send_result txn then
            (send_execution_output http_rpc_client send_result rest).map
              (txn :: ·)
          else
            -- submission failed: log and continue (lines 158-164)
            (send_execution_output http_rpc_client send_result rest).map
              (txn :: ·)
    | some job_output =>
      match http_rpc_client with
      | none => none
      | some _ =>
        let txn := Txn.submit_output job_output.signature job_output.id
          job_output.execution_response.output
          job_output.execution_response.total_time
          job_output.execution_response.error_code job_output.sign_timestamp
        if send_result txn then
          (send_execution_output http_rpc_client send_result rest).map
            (txn :: ·)
        else
          -- submission failed: log and continue (lines 184-190)
          (send_execution_output http_rpc_client send_result rest).map
            (txn :: ·)

/-! ## Derived notions used to state the claims -/

/-- One state-mutating operation of this core: processing one log from the
jobs stream, one log from the executors stream, or one log inside the
registration gate. -/
inductive CoreOp where
  | jobsLog (event : Log)
  | executorsLog (event : Log)
  | regLog (starting_block : Nat) (event : Log)
deriving DecidableEq

/-- The state reached by one core operation (`none` models a panic). -/
def applyCoreOp (cfg : Config) (st : ListenerState) : CoreOp → Option ListenerState
  | CoreOp.jobsLog event => (processJobsLog cfg st event).map JobsLogResult.state
  | CoreOp.executorsLog event => some (processExecutorsLog st event).1
  | CoreOp.regLog starting_block event =>
    some (registration_gate starting_block st [event]).1

/-- The event is a non-removed, non-stale `JobResponded` log for job `j`
whose decoded `outputCount` equals the configured quorum size — the exact
condition under which lines 355-370 remove `j` from the running-jobs set. -/
def respondedQuorum (cfg : Config) (st : ListenerState) (event : Log) (j : Nat) :
    Prop :=
  event.removed = some false ∧
  ∃ b, event.block_number = some b ∧ st.last_block_seen ≤ b ∧
    event.topics[0]? = some jobRespondedSig ∧
    event.topics[1]? = some j ∧
    ∃ event_tokens tk3,
      abi_decode jobRespondedParams event.data = some event_tokens ∧
      event_tokens[3]? = some tk3 ∧
      tk3.into_uint = some cfg.num_selected_executors

/-- Modelled from the spec: the code starting the listener (the HTTP
handler in `node_handler.rs`, which is not part of the given sources)
"start[s] at the resume cursor" (section 4.2) — it invokes
`events_listener` with `starting_block` equal to the value the resume
cursor `last_block_seen` holds at that moment. -/
def listener_invocation_ok (st : ListenerState) (starting_block : Nat) : Prop :=
  st.last_block_seen = starting_block

/-- The external log source honours a filter's lower block bound: a log
delivered on a subscription from block `sb` reports no block number below
`sb` (section 6's contract log source). -/
def log_respects_from_block (sb : Nat) (event : Log) : Bool :=
  match event.block_number with
  | none => true
  | some b => decide (sb ≤ b)

/-- All registration logs of a connection attempt honour the registration
filter's lower bound. -/
def attempt_respects_from_block (sb : Nat) : ConnAttempt → Bool
  | ConnAttempt.connectFail => true
  | ConnAttempt.conn regLogs _ => regLogs.all (log_respects_from_block sb)

/-- The transaction a `JobResponse` message makes the response dispatcher
submit, if any (`none` for the empty message that carries neither an output
nor a timeout). -/
def jobResponseTxn (jr : JobResponse) : Option Txn :=
  match jr.job_output with
  | none => jr.timeout_response.map Txn.slash_on_execution_timeout
  | some jo =>
    some (Txn.submit_output jo.signature jo.id jo.execution_response.output
      jo.execution_response.total_time jo.execution_response.error_code
      jo.sign_timestamp)

/-! ## Helper lemmas -/

/-- The selection check of lines 298-302 (`map into_address`, keep the
`Some`s, test membership of the enclave address) is membership of the
enclave address among the array entries that convert to addresses. -/
theorem any_isSome_getD_eq (a : Nat) (sel : List Token) :
    (((sel.map Token.into_address).filter Option.isSome).any
      fun addr => addr.getD 0 == a)
      = decide (a ∈ sel.filterMap Token.into_address) := by
  induction sel with
  | nil => simp
  | cons t ts ih =>
    cases t with
    | Address v =>
      by_cases h : a = v
      · simp [Token.into_address, ih, List.filterMap_cons, h]
      · simp [Token.into_address, ih, List.filterMap_cons, h, Ne.symm h]
    | FixedBytes b => simp [Token.into_address, ih, List.filterMap_cons]
    | Bytes b => simp [Token.into_address, ih, List.filterMap_cons]
    | Uint v => simp [Token.into_address, ih, List.filterMap_cons]
    | Array ts2 => simp [Token.into_address, ih, List.filterMap_cons]

/-- An array entry passes the `isSome` filter and unwraps to `a` exactly
when it converts to the address `a`. -/
theorem into_address_isSome_iff (a : Nat) (t : Token) :
    (t.into_address.isSome = true ∧ t.into_address.getD 0 = a) ↔
      t.into_address = some a := by
  cases t <;> simp [Token.into_address]

/-! ## Claim C1 -/

/-- C1: for every job-created event that passes the removed/block-number/
stale checks and decodes successfully, the dispatcher inserts the job id
into the running-jobs set unconditionally, spawns exactly one
`handle_timeout` (Timeout Monitor) task, and spawns exactly one
`handle_job` (Job Executor) task if and only if the node's own address
appears among the entries of `selectedExecutors` that decode to valid
addresses; if the node is not selected, only the `handle_timeout` task is
spawned. -/
theorem jobCreated_full_dispatch
    (cfg : Config) (st : ListenerState) (event : Log) (b jid : Nat)
    (topicsRest : List Nat) (ch ci : List Nat) (dl : Nat) (sel : List Token)
    (hrm : event.removed = some false)
    (hbn : event.block_number = some b)
    (hcur : st.last_block_seen ≤ b)
    (htp : event.topics = jobCreatedSig :: jid :: topicsRest)
    (hdata : event.data =
      [Token.FixedBytes ch, Token.Bytes ci, Token.Uint dl, Token.Array sel])
    (hch : ch.length = 32)
    (hdl : dl < 2 ^ 256)
    (hsel : Token.listHasTypeB sel ParamType.Address = true) :
    processJobsLog cfg st event =
      some ⟨{ st with last_block_seen := b, job_requests_running := insert jid st.job_requests_running },
            SpawnedTask.handle_timeout jid dl ::
              (if cfg.enclave_address ∈ sel.filterMap Token.into_address then
                [SpawnedTask.handle_job jid (codeHashHex ch) ci dl]
              else []),
            [b]⟩ := by
  have hnlt : ¬ b < st.last_block_seen := Nat.not_lt.mpr hcur
  have hdl2 :
      dl < 115792089237316195423570985008687907853269984665640564039457584007913129639936 :=
    hdl
  simp [processJobsLog, hrm, hbn, hnlt, htp, hdata, abi_decode,
    jobCreatedParams, tokensMatch, Token.hasTypeB, hch, hdl2, hsel,
    Token.into_fixed_bytes, Token.into_bytes, Token.into_uint,
    Token.into_array, into_address_isSome_iff]

/-- Concrete configuration for witnesses: this node is address 7. -/
def cfgW : Config :=
  { enclave_address := 7
    enclave_owner := 9
    executors_contract_addr := 11
    jobs_contract_addr := 12
    num_selected_executors := 3 }

/-- Concrete registered listener state with job 1 tracked and cursor 3. -/
def stW : ListenerState :=
  { enclave_registered := true
    last_block_seen := 3
    job_requests_running := {1} }

/-- A 32-byte code hash for witnesses. -/
def chW : List Nat := List.replicate 32 0

/-- A concrete well-formed `JobCreated` log at block 5 for job 42 that
selects this node (address 7). -/
def jobCreatedLogW : Log :=
  { removed := some false
    block_number := some 5
    topics := [jobCreatedSig, 42]
    data := [Token.FixedBytes chW, Token.Bytes [1, 2], Token.Uint 60,
             Token.Array [Token.Address 7, Token.Address 8]] }

/-- Witness for C1 at the concrete job-created log above. -/
theorem jobCreated_full_dispatch_witness :
    processJobsLog cfgW stW jobCreatedLogW =
      some ⟨{ stW with last_block_seen := 5, job_requests_running := insert 42 stW.job_requests_running },
            SpawnedTask.handle_timeout 42 60 ::
              (if cfgW.enclave_address ∈
                  List.filterMap Token.into_address
                    [Token.Address 7, Token.Address 8] then
                [SpawnedTask.handle_job 42 (codeHashHex chW) [1, 2] 60]
              else []),
            [5]⟩ :=
  jobCreated_full_dispatch cfgW stW jobCreatedLogW 5 42 [] chW [1, 2] 60
    [Token.Address 7, Token.Address 8] rfl rfl (by decide) rfl rfl (by decide)
    (by decide) (by decide)

/-! ## Claim C5 -/

/-- C5: for every log with `removed = true` received on either the
job-lifecycle stream or the deregistration stream, the dispatcher makes no
state change (registration flag, cursor, and running-jobs set all
unchanged), spawns no task, stores nothing to the cursor, and the loop
continues (no early return). -/
theorem removed_log_no_effect (cfg : Config) (st : ListenerState) (event : Log)
    (h : event.removed = some true) :
    processJobsLog cfg st event = some ⟨st, [], []⟩ ∧
    processExecutorsLog st event = (st, false) := by
  constructor <;> simp [processJobsLog, processExecutorsLog, h]

/-- A retracted (reorged) log. -/
def removedLogW : Log :=
  { removed := some true
    block_number := some 6
    topics := [jobCreatedSig, 43]
    data := [] }

/-- Witness for C5 at a concrete retracted log. -/
theorem removed_log_no_effect_witness :
    processJobsLog cfgW stW removedLogW = some ⟨stW, [], []⟩ ∧
    processExecutorsLog stW removedLogW = (stW, false) :=
  removed_log_no_effect cfgW stW removedLogW rfl

/-! ## Claim C10 -/

/-- C10: every log whose `removed` marker is absent is treated exactly like
a removed one and discarded with no state change and no spawned task,
uniformly in the registration gate, the deregistration branch, and the
job-lifecycle branch (each reads `removed.unwrap_or(true)`). -/
theorem missing_removed_marker_discarded (cfg : Config) (sb : Nat)
    (st : ListenerState) (event : Log) (rest : List Log)
    (h : event.removed = none) :
    registration_gate sb st (event :: rest) = registration_gate sb st rest ∧
    processJobsLog cfg st event = some ⟨st, [], []⟩ ∧
    processExecutorsLog st event = (st, false) := by
  refine ⟨?_, ?_, ?_⟩ <;>
    simp [registration_gate, processJobsLog, processExecutorsLog, h]

/-- A log carrying no `removed` marker. -/
def noMarkerLogW : Log :=
  { removed := none
    block_number := some 6
    topics := [jobRespondedSig, 1]
    data := [] }

/-- Witness for C10 at a concrete marker-less log. -/
theorem missing_removed_marker_discarded_witness :
    registration_gate 0 stW (noMarkerLogW :: []) = registration_gate 0 stW [] ∧
    processJobsLog cfgW stW noMarkerLogW = some ⟨stW, [], []⟩ ∧
    processExecutorsLog stW noMarkerLogW = (stW, false) :=
  missing_removed_marker_discarded cfgW 0 stW noMarkerLogW [] rfl

/-! ## Claim C4 -/

/-- Successful ABI decoding returns the (type-checked) token list itself. -/
theorem abi_decode_some (ps : List ParamType) (d toks : List Token) :
    abi_decode ps d = some toks ↔ tokensMatch ps d = true ∧ toks = d := by
  simp only [abi_decode]
  split
  · rename_i hm
    simp [hm, eq_comm]
  · rename_i hm
    simp [hm]

/-- A successful pointwise layout check types every token. -/
theorem tokensMatch_get :
    ∀ (ps : List ParamType) (data : List Token),
      tokensMatch ps data = true →
      ∀ (i : Nat) (p : ParamType) (tk : Token),
        ps[i]? = some p → data[i]? = some tk → Token.hasTypeB tk p = true
  | [], [], _, i, _, _, hp, _ => by simp at hp
  | [], _ :: _, h, _, _, _, _, _ => by simp [tokensMatch] at h
  | _ :: _, [], h, _, _, _, _, _ => by simp [tokensMatch] at h
  | p :: ps, t :: ts, h, 0, p0, tk, hp, ht => by
    simp only [tokensMatch, Bool.and_eq_true] at h
    simp only [List.getElem?_cons_zero, Option.some.injEq] at hp ht
    cases hp; cases ht
    exact h.1
  | p :: ps, t :: ts, h, i + 1, p0, tk, hp, ht => by
    simp only [tokensMatch, Bool.and_eq_true] at h
    simp only [List.getElem?_cons_succ] at hp ht
    exact tokensMatch_get ps ts h.2 i p0 tk hp ht

/-- A token typed `FixedBytes n` converts with `into_fixed_bytes`. -/
theorem hasTypeB_into_fixed_bytes (t : Token) (n : Nat)
    (h : Token.hasTypeB t (ParamType.FixedBytes n) = true) :
    ∃ b, t.into_fixed_bytes = some b := by
  cases t <;> simp_all [Token.hasTypeB, Token.into_fixed_bytes]

/-- A token typed `Bytes` converts with `into_bytes`. -/
theorem hasTypeB_into_bytes (t : Token)
    (h : Token.hasTypeB t ParamType.Bytes = true) :
    ∃ b, t.into_bytes = some b := by
  cases t <;> simp_all [Token.hasTypeB, Token.into_bytes]

/-- A token typed `Uint n` converts with `into_uint`. -/
theorem hasTypeB_into_uint (t : Token) (n : Nat)
    (h : Token.hasTypeB t (ParamType.Uint n) = true) :
    ∃ v, t.into_uint = some v := by
  cases t <;> simp_all [Token.hasTypeB, Token.into_uint]

/-- A token typed `Array` converts with `into_array`. -/
theorem hasTypeB_into_array (t : Token) (p : ParamType)
    (h : Token.hasTypeB t (ParamType.Array p) = true) :
    ∃ ts, t.into_array = some ts := by
  cases t <;> simp_all [Token.hasTypeB, Token.into_array]

/-- C4: for every job-created event that passes the removed/block-number/
stale checks, if decoding fails at any field (the whole event data, or the
codeHash, codeInputs, deadline or selectedExecutors token), the event is
skipped with no partial effects — the running-jobs set is unchanged and no
task is spawned — but the cursor has already been advanced to the event's
block number. -/
theorem jobCreated_decode_failure_skips
    (cfg : Config) (st : ListenerState) (event : Log) (b : Nat)
    (hrm : event.removed = some false)
    (hbn : event.block_number = some b)
    (hcur : st.last_block_seen ≤ b)
    (htp0 : event.topics[0]? = some jobCreatedSig)
    (hfail :
      abi_decode jobCreatedParams event.data = none ∨
      (∃ toks tk, abi_decode jobCreatedParams event.data = some toks ∧
        toks[0]? = some tk ∧ tk.into_fixed_bytes = none) ∨
      (∃ toks tk, abi_decode jobCreatedParams event.data = some toks ∧
        toks[1]? = some tk ∧ tk.into_bytes = none) ∨
      (∃ toks tk, abi_decode jobCreatedParams event.data = some toks ∧
        toks[2]? = some tk ∧ tk.into_uint = none) ∨
      (∃ toks tk, abi_decode jobCreatedParams event.data = some toks ∧
        toks[3]? = some tk ∧ tk.into_array = none)) :
    processJobsLog cfg st event =
      some ⟨{ st with last_block_seen := b }, [], [b]⟩ := by
  have hnlt : ¬ b < st.last_block_seen := Nat.not_lt.mpr hcur
  rcases hfail with hdec | ⟨toks, tk, hdec, hget, hconv⟩ |
      ⟨toks, tk, hdec, hget, hconv⟩ | ⟨toks, tk, hdec, hget, hconv⟩ |
      ⟨toks, tk, hdec, hget, hconv⟩
  · simp [processJobsLog, hrm, hbn, hnlt, htp0, hdec]
  all_goals {
    exfalso
    obtain ⟨hm, htoks⟩ := (abi_decode_some _ _ _).mp hdec
    subst htoks
    first
    | exact absurd
        (hasTypeB_into_fixed_bytes tk 32
          (tokensMatch_get _ _ hm 0 _ tk rfl hget)) (by simp [hconv])
    | exact absurd
        (hasTypeB_into_bytes tk
          (tokensMatch_get _ _ hm 1 _ tk rfl hget)) (by simp [hconv])
    | exact absurd
        (hasTypeB_into_uint tk 256
          (tokensMatch_get _ _ hm 2 _ tk rfl hget)) (by simp [hconv])
    | exact absurd
        (hasTypeB_into_array tk ParamType.Address
          (tokensMatch_get _ _ hm 3 _ tk rfl hget)) (by simp [hconv])
  }

/-- A non-removed log at block 5 carrying the `JobCreated` signature whose
data does not decode under the `JobCreated` layout. -/
def malformedJobCreatedLogW : Log :=
  { removed := some false
    block_number := some 5
    topics := [jobCreatedSig, 44]
    data := [Token.Uint 5] }

/-- Witness for C4 at the concrete malformed job-created log above. -/
theorem jobCreated_decode_failure_skips_witness :
    processJobsLog cfgW stW malformedJobCreatedLogW =
      some ⟨{ stW with last_block_seen := 5 }, [], [5]⟩ :=
  jobCreated_decode_failure_skips cfgW stW malformedJobCreatedLogW 5 rfl rfl
    (by decide) rfl (Or.inl (by decide))

/-! ## Claim C9 -/

/-- C9 (amended): `event.topics[0]` and `event.topics[1]` are read without a
length check, but for a non-removed, non-stale job-lifecycle log whose
topics list has fewer than two entries the indexing is out of bounds
exactly when the topics list is empty, or its single entry is the
job-responded signature (`topics[1]` is read before decoding there), or its
single entry is the job-created signature and the event data decodes
successfully (`topics[1]` is read only after a successful decode); a short
topics list matching neither signature, or matching the job-created
signature with undecodable data, is skipped (with the cursor advanced), not
a panic. -/
theorem short_topics_oob_iff
    (cfg : Config) (st : ListenerState) (event : Log) (b : Nat)
    (hrm : event.removed = some false)
    (hbn : event.block_number = some b)
    (hcur : st.last_block_seen ≤ b)
    (hshort : event.topics.length < 2) :
    processJobsLog cfg st event = none ↔
      (event.topics = [] ∨ event.topics = [jobRespondedSig] ∨
        (event.topics = [jobCreatedSig] ∧
          abi_decode jobCreatedParams event.data ≠ none)) := by
  have hnlt : ¬ b < st.last_block_seen := Nat.not_lt.mpr hcur
  rcases htp : event.topics with _ | ⟨t0, _ | ⟨t1, ts⟩⟩
  · simp [processJobsLog, hrm, hbn, hnlt, htp]
  · by_cases h0 : t0 = jobCreatedSig
    · subst h0
      cases hdec : abi_decode jobCreatedParams event.data with
      | none =>
        simp [processJobsLog, hrm, hbn, hnlt, htp, hdec, jobCreatedSig,
          jobRespondedSig]
      | some toks =>
        simp [processJobsLog, hrm, hbn, hnlt, htp, hdec, jobCreatedSig,
          jobRespondedSig]
    · by_cases h1 : t0 = jobRespondedSig
      · subst h1
        simp [processJobsLog, hrm, hbn, hnlt, htp, jobCreatedSig,
          jobRespondedSig]
      · simp [processJobsLog, hrm, hbn, hnlt, htp, h0, h1]
  · rw [htp] at hshort
    simp only [List.length_cons] at hshort
    omega

/-- A non-removed log at block 5 whose single topic matches neither event
signature. -/
def unknownTopicLogW : Log :=
  { removed := some false
    block_number := some 5
    topics := [999]
    data := [] }

/-- Counterexample to C9 as stated: this log passes the removed/
block-number/stale guards and has fewer than two topics, yet processing it
does not go out of bounds — the event is skipped (with the cursor
advanced), because neither signature matches its single topic. -/
theorem short_topics_oob_counterexample :
    unknownTopicLogW.removed = some false ∧
    unknownTopicLogW.block_number = some 5 ∧
    stW.last_block_seen ≤ 5 ∧
    unknownTopicLogW.topics.length < 2 ∧
    processJobsLog cfgW stW unknownTopicLogW ≠ none := by
  decide

/-- An otherwise-valid log with an empty topics list. -/
def noTopicsLogW : Log :=
  { removed := some false
    block_number := some 5
    topics := []
    data := [] }

/-- Witness for (amended) C9 at a concrete log with no topics: processing
panics. -/
theorem short_topics_oob_iff_witness :
    processJobsLog cfgW stW noTopicsLogW = none ↔
      (noTopicsLogW.topics = [] ∨ noTopicsLogW.topics = [jobRespondedSig] ∨
        (noTopicsLogW.topics = [jobCreatedSig] ∧
          abi_decode jobCreatedParams noTopicsLogW.data ≠ none)) :=
  short_topics_oob_iff cfgW stW noTopicsLogW 5 rfl rfl (by decide) (by decide)

/-! ## Claim C2 -/

/-- A log the `removed.unwrap_or(true)` guard lets through is marked
`removed = Some(false)`. -/
theorem removed_guard_passes (o : Option Bool) (h : ¬ o.getD true = true) :
    o = some false := by
  cases o with
  | none => simp at h
  | some bb => cases bb <;> simp_all

/-- A log the `removed.unwrap_or(true)` guard discards is not marked
`removed = Some(false)`. -/
theorem removed_guard_discards (o : Option Bool) (h : o.getD true = true) :
    o ≠ some false := by
  cases o <;> simp_all

/-- C2: under any single core operation (a jobs-stream log, an
executors-stream log, or a registration-gate log), a tracked job id `j` is
removed from the running-jobs set if and only if the operation is a
jobs-stream log forming a non-removed, non-stale `JobResponded` event for
`j` whose decoded `outputCount` equals the configured
`num_selected_executors`; any other counter value — and any other
operation — leaves the set unchanged. -/
theorem running_jobs_removal_iff
    (cfg : Config) (st : ListenerState) (op : CoreOp) (st2 : ListenerState)
    (h : applyCoreOp cfg st op = some st2) (j : Nat) :
    (j ∈ st.job_requests_running ∧ j ∉ st2.job_requests_running) ↔
      (j ∈ st.job_requests_running ∧
        ∃ e, op = CoreOp.jobsLog e ∧ respondedQuorum cfg st e j) := by
  cases op with
  | executorsLog e =>
    simp only [applyCoreOp, Option.some.injEq] at h
    subst h
    simp only [processExecutorsLog]
    split <;> simp
  | regLog sb e =>
    simp only [applyCoreOp, Option.some.injEq] at h
    subst h
    by_cases hr : e.removed.getD true = true
    · simp [registration_gate, hr]
    · simp [registration_gate, hr]
  | jobsLog e =>
    simp only [applyCoreOp] at h
    obtain ⟨r, hr, hst⟩ := Option.map_eq_some'.mp h
    subst hst
    by_cases h1 : e.removed.getD true = true
    · simp only [processJobsLog, h1, if_true, Option.some.injEq] at hr
      subst hr
      simp [respondedQuorum, removed_guard_discards e.removed h1]
    · have h1f : e.removed = some false := removed_guard_passes e.removed h1
      cases hbn : e.block_number with
      | none =>
        simp only [processJobsLog, h1, if_false, hbn, Option.some.injEq,
          Bool.false_eq_true] at hr
        subst hr
        simp [respondedQuorum, hbn]
      | some b =>
        by_cases h3 : b < st.last_block_seen
        · simp only [processJobsLog, h1, if_false, hbn, h3, if_true,
            Option.some.injEq, Bool.false_eq_true] at hr
          subst hr
          simp only [respondedQuorum, hbn, Option.some.injEq]
          constructor
          · rintro ⟨hj, hnot⟩
            exact absurd hj (by simp_all)
          · rintro ⟨hj, e2, he2, hrm2, b2, hb2, hle, hrest⟩
            cases he2
            rw [hbn] at hb2
            injection hb2 with hbb
            subst hbb
            omega
        · cases ht0 : e.topics[0]? with
          | none =>
            simp only [processJobsLog, h1, if_false, hbn, h3, if_false, ht0,
              Bool.false_eq_true] at hr
            exact Option.noConfusion hr
          | some t0 =>
            by_cases hc : t0 = jobCreatedSig
            · subst hc
              simp only [processJobsLog, h1, hbn, h3, ht0, if_true, if_false,
                Bool.false_eq_true, ite_true, ite_false] at hr
              have hq : ¬ respondedQuorum cfg st e j := by
                simp only [respondedQuorum, ht0]
                rintro ⟨-, b2, -, -, hsig, -⟩
                simp only [Option.some.injEq] at hsig
                exact absurd hsig (by decide)
              split at hr
              · simp only [Option.some.injEq] at hr
                subst hr
                simp [hq]
              · split at hr
                · exact absurd hr (by simp)
                · split at hr
                  · exact absurd hr (by simp)
                  · split at hr
                    · simp only [Option.some.injEq] at hr
                      subst hr
                      simp [hq]
                    · split at hr
                      · exact absurd hr (by simp)
                      · split at hr
                        · simp only [Option.some.injEq] at hr
                          subst hr
                          simp [hq]
                        · split at hr
                          · exact absurd hr (by simp)
                          · split at hr
                            · simp only [Option.some.injEq] at hr
                              subst hr
                              simp [hq]
                            · split at hr
                              · exact absurd hr (by simp)
                              · split at hr
                                · simp only [Option.some.injEq] at hr
                                  subst hr
                                  simp [hq]
                                · simp only [Option.some.injEq] at hr
                                  subst hr
                                  constructor
                                  · rintro ⟨hj, hnot⟩
                                    exact absurd hnot (by simp [hj])
                                  · rintro ⟨hj, e2, he2, hrest⟩
                                    cases he2
                                    exact absurd hrest hq
            · by_cases hc2 : t0 = jobRespondedSig
              · subst hc2
                simp only [processJobsLog, h1, hbn, h3, ht0, hc, if_false,
                  Bool.false_eq_true, ite_false, ite_true] at hr
                cases ht1 : e.topics[1]? with
                | none =>
                  simp only [ht1] at hr
                  exact Option.noConfusion hr
                | some jid =>
                  simp only [ht1] at hr
                  cases hdec : abi_decode jobRespondedParams e.data with
                  | none =>
                    simp only [hdec, Option.some.injEq] at hr
                    subst hr
                    simp [respondedQuorum, hdec]
                  | some toks =>
                    simp only [hdec] at hr
                    cases hg3 : toks[3]? with
                    | none =>
                      simp only [hg3] at hr
                      exact Option.noConfusion hr
                    | some tk3 =>
                      simp only [hg3] at hr
                      cases hu : tk3.into_uint with
                      | none =>
                        simp only [hu, Option.some.injEq] at hr
                        subst hr
                        simp only [respondedQuorum, hdec, hg3, hu,
                          Option.some.injEq]
                        constructor
                        · rintro ⟨hj, hnot⟩
                          exact absurd hj (by simp_all)
                        · rintro ⟨hj, e2, he2, -, b2, -, -, -, -, toks2, tk2,
                            htk2, hg2, hu2⟩
                          cases he2
                          rw [hdec] at htk2
                          injection htk2 with htk2
                          subst htk2
                          rw [hg3] at hg2
                          simp only [Option.some.injEq] at hg2
                          subst hg2
                          rw [hu] at hu2
                          exact absurd hu2 (by simp)
                      | some cnt =>
                        simp only [hu] at hr
                        by_cases hcnt : cnt = cfg.num_selected_executors
                        · rw [if_pos hcnt] at hr
                          simp only [Option.some.injEq] at hr
                          subst hr
                          constructor
                          · rintro ⟨hj, hnot⟩
                            rw [Finset.mem_erase] at hnot
                            push_neg at hnot
                            have hjj : j = jid := by
                              by_contra hne
                              exact hnot hne hj
                            subst hjj
                            exact ⟨hj, e, rfl, h1f, b, hbn,
                              Nat.le_of_not_lt h3, ht0, ht1, toks, tk3, hdec,
                              hg3, by rw [hu, hcnt]⟩
                          · rintro ⟨hj, e2, he2, -, b2, -, -, -, hjid, -⟩
                            cases he2
                            rw [ht1] at hjid
                            simp only [Option.some.injEq] at hjid
                            subst hjid
                            exact ⟨hj, by simp [Finset.mem_erase]⟩
                        · simp only [hcnt, if_false, ite_false,
                            Option.some.injEq, if_neg hcnt] at hr
                          subst hr
                          simp only [respondedQuorum, hdec, hg3, hu,
                            Option.some.injEq]
                          constructor
                          · rintro ⟨hj, hnot⟩
                            exact absurd hj (by simp_all)
                          · rintro ⟨hj, e2, he2, -, b2, -, -, -, -, toks2, tk2,
                              htk2, hg2, hu2⟩
                            cases he2
                            rw [hdec] at htk2
                            injection htk2 with htk2
                            subst htk2
                            rw [hg3] at hg2
                            simp only [Option.some.injEq] at hg2
                            subst hg2
                            rw [hu] at hu2
                            simp only [Option.some.injEq] at hu2
                            exact absurd hu2 hcnt
              · simp only [processJobsLog, h1, hbn, h3, ht0, hc, hc2,
                  if_false, Bool.false_eq_true, ite_false,
                  Option.some.injEq] at hr
                subst hr
                simp only [respondedQuorum, ht0, Option.some.injEq]
                constructor
                · rintro ⟨hj, hnot⟩
                  exact absurd hj (by simp_all)
                · rintro ⟨hj, e2, he2, -, b2, -, -, hsig, -⟩
                  cases he2
                  rw [ht0] at hsig
                  injection hsig with hsig
                  exact absurd hsig hc2

/-- A non-removed `JobResponded` log at block 6 for job 1 whose outputCount
equals the configured quorum size 3. -/
def jobRespondedLogW : Log :=
  { removed := some false
    block_number := some 6
    topics := [jobRespondedSig, 1]
    data := [Token.Bytes [], Token.Uint 9, Token.Uint 1, Token.Uint 3] }

/-- The state reached from `stW` by processing `jobRespondedLogW`. -/
def stW2 : ListenerState :=
  { enclave_registered := true
    last_block_seen := 6
    job_requests_running := ({1} : Finset Nat).erase 1 }

/-- Witness for C2: at the concrete quorum-reaching job-responded log, the
tracked job 1 is removed, and the characterization holds. -/
theorem running_jobs_removal_iff_witness :
    (1 ∈ stW.job_requests_running ∧ 1 ∉ stW2.job_requests_running) ↔
      (1 ∈ stW.job_requests_running ∧
        ∃ e, CoreOp.jobsLog jobRespondedLogW = CoreOp.jobsLog e ∧
          respondedQuorum cfgW stW e 1) :=
  running_jobs_removal_iff cfgW stW (CoreOp.jobsLog jobRespondedLogW) stW2
    (by decide) 1

/-! ## Claim C8 -/

/-- C8: with a configured chain client, the response dispatcher submits the
transaction determined by each message of the outcome channel — slash for a
timeout message, submit-output for an execution-output message, nothing for
an empty message — for the whole channel contents, whatever the submission
outcomes are (`send_result` is arbitrary, so a failed submission never stops
the pipeline); the dispatcher exits exactly after the channel is closed and
fully drained. -/
theorem send_execution_output_drains (http_rpc_client : Option Unit)
    (send_result : Txn → Bool) (msgs : List JobResponse)
    (hc : http_rpc_client = some ()) :
    send_execution_output http_rpc_client send_result msgs =
      some (msgs.filterMap jobResponseTxn) := by
  subst hc
  induction msgs with
  | nil => rfl
  | cons m rest ih =>
    cases hjo : m.job_output with
    | some jo =>
      simp [send_execution_output, jobResponseTxn, hjo, ih, ite_self]
    | none =>
      cases hto : m.timeout_response with
      | none => simp [send_execution_output, jobResponseTxn, hjo, hto, ih]
      | some jobid =>
        simp [send_execution_output, jobResponseTxn, hjo, hto, ih, ite_self]

/-- A concrete channel content: a timeout for job 7, an empty message, and
an execution output for job 8. -/
def msgsW : List JobResponse :=
  [{ job_output := none, timeout_response := some 7 },
   { job_output := none, timeout_response := none },
   { job_output := some
      { signature := [1]
        id := 8
        execution_response := { output := [2], total_time := 4, error_code := 0 }
        sign_timestamp := 5 }
     timeout_response := none }]

/-- Witness for C8: even with every submission failing, all three messages
are drained and both transactions are attempted. -/
theorem send_execution_output_drains_witness :
    send_execution_output (some ()) (fun _ => false) msgsW =
      some (msgsW.filterMap jobResponseTxn) :=
  send_execution_output_drains (some ()) (fun _ => false) msgsW rfl

/-! ## Per-step and per-loop invariants -/

/-- Processing a jobs-stream log never changes the registration flag. -/
theorem processJobsLog_registered (cfg : Config) (st : ListenerState)
    (e : Log) (r : JobsLogResult) (h : processJobsLog cfg st e = some r) :
    r.state.enclave_registered = st.enclave_registered := by
  simp only [processJobsLog] at h
  repeat' split at h
  all_goals first
    | exact Option.noConfusion h
    | (injection h with h; subst h; rfl)

/-- Processing a jobs-stream log performs no cursor write (state unchanged)
or exactly one, storing the new, not smaller, cursor value. -/
theorem processJobsLog_writes (cfg : Config) (st : ListenerState)
    (e : Log) (r : JobsLogResult) (h : processJobsLog cfg st e = some r) :
    (r.cursor_writes = [] ∧ r.state.last_block_seen = st.last_block_seen) ∨
    (r.cursor_writes = [r.state.last_block_seen] ∧
      st.last_block_seen ≤ r.state.last_block_seen) := by
  simp only [processJobsLog] at h
  repeat' split at h
  all_goals first
    | exact Option.noConfusion h
    | (injection h with h; subst h; left; exact ⟨rfl, rfl⟩)
    | (injection h with h; subst h; right; refine ⟨rfl, ?_⟩; dsimp only; omega)

/-- Chains concatenate along the last element of the first part. -/
theorem chain_append_getLastD (c : Nat) :
    ∀ (l1 l2 : List Nat), List.Chain (· ≤ ·) c l1 →
      List.Chain (· ≤ ·) (l1.getLastD c) l2 → List.Chain (· ≤ ·) c (l1 ++ l2)
  | [], l2, _, h2 => h2
  | a :: t, l2, h1, h2 => by
    rw [List.chain_cons] at h1
    rw [List.getLastD_cons] at h2
    exact List.chain_cons.mpr ⟨h1.1, chain_append_getLastD a t l2 h1.2 h2⟩

/-- Exit characterization of the dispatch loop: an early return flags the
enclave as deregistered, exhaustion preserves the registration flag, and
the early return happens exactly when the interleaving contains a
non-removed deregistration log. -/
theorem handle_event_logs_exit (cfg : Config) :
    ∀ (evs : List StreamEvent) (st : ListenerState) (lr : LoopResult),
      handle_event_logs cfg st evs = some lr →
      ((lr.exitKind = LoopExit.deregReturn →
          lr.state.enclave_registered = false) ∧
        (lr.exitKind = LoopExit.bothEnded →
          lr.state.enclave_registered = st.enclave_registered) ∧
        (lr.exitKind = LoopExit.deregReturn ↔
          ∃ e, StreamEvent.executors e ∈ evs ∧ e.removed.getD true = false))
  | [], st, lr, h => by
    injection h with h
    subst h
    simp
  | StreamEvent.executors e :: rest, st, lr, h => by
    by_cases hrm : e.removed.getD true = true
    · simp only [handle_event_logs, processExecutorsLog, hrm, ite_true,
        ite_false] at h
      have ih := handle_event_logs_exit cfg rest st lr h
      refine ⟨ih.1, ih.2.1, ?_⟩
      rw [ih.2.2]
      constructor
      · rintro ⟨e2, hmem, hnr⟩
        exact ⟨e2, List.mem_cons_of_mem _ hmem, hnr⟩
      · rintro ⟨e2, hmem, hnr⟩
        rcases List.mem_cons.mp hmem with heq | hmem2
        · injection heq with heq
          subst heq
          rw [hrm] at hnr
          exact Bool.noConfusion hnr
        · exact ⟨e2, hmem2, hnr⟩
    · simp only [handle_event_logs, processExecutorsLog, hrm, ite_true,
        ite_false, Bool.false_eq_true, Option.some.injEq] at h
      subst h
      refine ⟨fun _ => rfl, fun hx => LoopExit.noConfusion hx, ?_⟩
      simp only [true_iff]
      exact ⟨e, List.mem_cons_self _ _, by
        cases hb : e.removed.getD true
        · rfl
        · exact absurd hb hrm⟩
  | StreamEvent.jobs e :: rest, st, lr, h => by
    simp only [handle_event_logs] at h
    cases hpj : processJobsLog cfg st e with
    | none =>
      rw [hpj] at h
      exact Option.noConfusion h
    | some r =>
      rw [hpj] at h
      simp only [Option.map_eq_some'] at h
      obtain ⟨lr2, hrec, hlr⟩ := h
      subst hlr
      have ih := handle_event_logs_exit cfg rest r.state lr2 hrec
      have hreg := processJobsLog_registered cfg st e r hpj
      refine ⟨ih.1, fun hx => (ih.2.1 hx).trans hreg, ?_⟩
      rw [ih.2.2]
      constructor
      · rintro ⟨e2, hmem, hnr⟩
        exact ⟨e2, List.mem_cons_of_mem _ hmem, hnr⟩
      · rintro ⟨e2, hmem, hnr⟩
        rcases List.mem_cons.mp hmem with heq | hmem2
        · exact StreamEvent.noConfusion heq
        · exact ⟨e2, hmem2, hnr⟩

/-- The cursor writes of a dispatch-loop run form a non-decreasing chain
from the initial cursor, and the final cursor is the last written value
(or the initial one when nothing was written). -/
theorem handle_event_logs_writes (cfg : Config) :
    ∀ (evs : List StreamEvent) (st : ListenerState) (lr : LoopResult),
      handle_event_logs cfg st evs = some lr →
      List.Chain (· ≤ ·) st.last_block_seen lr.cursor_writes ∧
      lr.state.last_block_seen = lr.cursor_writes.getLastD st.last_block_seen
  | [], st, lr, h => by
    injection h with h
    subst h
    exact ⟨List.Chain.nil, rfl⟩
  | StreamEvent.executors e :: rest, st, lr, h => by
    by_cases hrm : e.removed.getD true = true
    · simp only [handle_event_logs, processExecutorsLog, hrm, ite_true,
        ite_false] at h
      exact handle_event_logs_writes cfg rest st lr h
    · simp only [handle_event_logs, processExecutorsLog, hrm, ite_true,
        ite_false, Bool.false_eq_true, Option.some.injEq] at h
      subst h
      exact ⟨List.Chain.nil, rfl⟩
  | StreamEvent.jobs e :: rest, st, lr, h => by
    simp only [handle_event_logs] at h
    cases hpj : processJobsLog cfg st e with
    | none =>
      rw [hpj] at h
      exact Option.noConfusion h
    | some r =>
      rw [hpj] at h
      simp only [Option.map_eq_some'] at h
      obtain ⟨lr2, hrec, hlr⟩ := h
      subst hlr
      have ih := handle_event_logs_writes cfg rest r.state lr2 hrec
      rcases processJobsLog_writes cfg st e r hpj with ⟨hw, hc⟩ | ⟨hw, hle⟩
      · dsimp only
        rw [hw, List.nil_append]
        rw [hc] at ih
        exact ih
      · dsimp only
        rw [hw, List.cons_append, List.nil_append]
        constructor
        · exact List.chain_cons.mpr ⟨hle, ih.1⟩
        · rw [List.getLastD_cons]
          exact ih.2

/-! ## Claim C7 -/

/-- C7: when the dispatch loop starts registered, it returns early exactly
when it sets the registration flag to false, which happens exactly when a
non-removed deregistration log arrives (stream exhaustion is the only other
way out); and after the loop returns, the supervisor returns entirely
exactly when the flag is false, and otherwise loops on to the next
connection attempt, carrying the state over. -/
theorem dereg_return_and_supervisor_exit
    (cfg : Config) (sb : Nat) (st : ListenerState) (regLogs : List Log)
    (events : List StreamEvent) (rest : List ConnAttempt) (lr : LoopResult)
    (hreg : st.enclave_registered = true)
    (h : handle_event_logs cfg st events = some lr) :
    (lr.exitKind = LoopExit.deregReturn ↔
      lr.state.enclave_registered = false) ∧
    (lr.exitKind = LoopExit.deregReturn ↔
      ∃ e, StreamEvent.executors e ∈ events ∧ e.removed.getD true = false) ∧
    (events_listener cfg sb st (ConnAttempt.conn regLogs (some events) :: rest) =
      if lr.state.enclave_registered then
        (events_listener cfg sb lr.state rest).map fun r =>
          ⟨r.state, lr.tasks ++ r.tasks, lr.cursor_writes ++ r.cursor_writes,
            r.gate_cursors, r.terminated⟩
      else some ⟨lr.state, lr.tasks, lr.cursor_writes, [], true⟩) := by
  have ih := handle_event_logs_exit cfg events st lr h
  refine ⟨⟨ih.1, ?_⟩, ih.2.2, ?_⟩
  · intro hx
    cases he : lr.exitKind with
    | deregReturn => rfl
    | bothEnded =>
      have hz := ih.2.1 he
      rw [hreg] at hz
      rw [hz] at hx
      exact Bool.noConfusion hx
  · simp only [events_listener, hreg, ite_true, Bool.true_eq_false,
      ite_false, h, List.nil_append]

/-- A non-removed `ExecutorDeregistered` log. -/
def deregLogW : Log :=
  { removed := some false
    block_number := some 7
    topics := [executorDeregisteredSig]
    data := [] }

/-- Witness for C7 at a one-log interleaving holding a non-removed
deregistration log. -/
theorem dereg_return_and_supervisor_exit_witness :
    (LoopExit.deregReturn = LoopExit.deregReturn ↔
      ({ stW with enclave_registered := false } : ListenerState).enclave_registered = false) ∧
    (LoopExit.deregReturn = LoopExit.deregReturn ↔
      ∃ e, StreamEvent.executors e ∈ [StreamEvent.executors deregLogW] ∧
        e.removed.getD true = false) ∧
    (events_listener cfgW 0 stW
        (ConnAttempt.conn [] (some [StreamEvent.executors deregLogW]) :: []) =
      if ({ stW with enclave_registered := false } : ListenerState).enclave_registered then
        (events_listener cfgW 0 { stW with enclave_registered := false } []).map
          fun r =>
            ⟨r.state, [] ++ r.tasks, [] ++ r.cursor_writes, r.gate_cursors,
              r.terminated⟩
      else
        some ⟨{ stW with enclave_registered := false }, [], [], [], true⟩) :=
  dereg_return_and_supervisor_exit cfgW 0 stW [] [StreamEvent.executors deregLogW]
    [] ⟨{ stW with enclave_registered := false }, [], [], LoopExit.deregReturn⟩
    rfl (by decide)

/-- The registration gate either finds no usable log (and leaves the state
untouched, writing nothing) or registers off some delivered log, storing
that log's block number (default: the starting block). -/
theorem registration_gate_spec (sb : Nat) (st : ListenerState) :
    ∀ logs : List Log,
      registration_gate sb st logs = (st, []) ∨
      ∃ e, e ∈ logs ∧
        registration_gate sb st logs =
          ({ st with enclave_registered := true, last_block_seen := e.block_number.getD sb },
           [e.block_number.getD sb])
  | [] => Or.inl rfl
  | e :: rest => by
    by_cases hrm : e.removed.getD true = true
    · simp only [registration_gate, hrm, ite_true]
      rcases registration_gate_spec sb st rest with h | ⟨e2, hmem, h⟩
      · exact Or.inl h
      · exact Or.inr ⟨e2, List.mem_cons_of_mem _ hmem, h⟩
    · simp only [registration_gate, hrm, ite_false, Bool.false_eq_true]
      exact Or.inr ⟨e, List.mem_cons_self _ _, rfl⟩

/-- While the enclave stays registered, the supervisor never runs the
registration gate. -/
theorem events_listener_registered_no_gate (cfg : Config) (sb : Nat) :
    ∀ (attempts : List ConnAttempt) (st : ListenerState) (res : RunResult),
      st.enclave_registered = true →
      events_listener cfg sb st attempts = some res →
      res.gate_cursors = []
  | [], st, res, _, h => by
    injection h with h
    subst h
    rfl
  | ConnAttempt.connectFail :: rest, st, res, hreg, h => by
    simp only [events_listener] at h
    exact events_listener_registered_no_gate cfg sb rest st res hreg h
  | ConnAttempt.conn regLogs none :: rest, st, res, hreg, h => by
    simp only [events_listener, hreg, ite_true, Bool.true_eq_false,
      ite_false, Option.map_eq_some'] at h
    obtain ⟨r2, hrec, hres⟩ := h
    subst hres
    exact events_listener_registered_no_gate cfg sb rest st r2 hreg hrec
  | ConnAttempt.conn regLogs (some events) :: rest, st, res, hreg, h => by
    simp only [events_listener, hreg, ite_true, Bool.true_eq_false,
      ite_false] at h
    cases hh : handle_event_logs cfg st events with
    | none =>
      rw [hh] at h
      exact Option.noConfusion h
    | some lr =>
      rw [hh] at h
      by_cases hlr : lr.state.enclave_registered = true
      · simp only [hlr, ite_true, Option.map_eq_some'] at h
        obtain ⟨r2, hrec, hres⟩ := h
        subst hres
        exact events_listener_registered_no_gate cfg sb rest lr.state r2 hlr hrec
      · have hlr2 : lr.state.enclave_registered = false := by
          cases hb : lr.state.enclave_registered
          · rfl
          · exact absurd hb hlr
        simp only [hlr2, Bool.false_eq_true, ite_false,
          Option.some.injEq] at h
        subst h
        rfl

/-- Every cursor value recorded at a gate run equals the cursor the
listener was entered with: the gate only ever runs before the first
successful registration, and nothing writes the cursor before that. -/
theorem events_listener_gate_cursors (cfg : Config) (sb : Nat) :
    ∀ (attempts : List ConnAttempt) (st : ListenerState) (res : RunResult),
      events_listener cfg sb st attempts = some res →
      ∀ c ∈ res.gate_cursors, c = st.last_block_seen
  | [], st, res, h => by
    injection h with h
    subst h
    intro c hc
    exact absurd hc (List.not_mem_nil c)
  | ConnAttempt.connectFail :: rest, st, res, h => by
    simp only [events_listener] at h
    exact events_listener_gate_cursors cfg sb rest st res h
  | ConnAttempt.conn regLogs de :: rest, st, res, h => by
    by_cases hreg : st.enclave_registered = true
    · have hz := events_listener_registered_no_gate cfg sb
        (ConnAttempt.conn regLogs de :: rest) st res hreg h
      intro c hc
      rw [hz] at hc
      exact absurd hc (List.not_mem_nil c)
    · have hreg2 : st.enclave_registered = false := by
        cases hb : st.enclave_registered
        · rfl
        · exact absurd hb hreg
      simp only [events_listener, hreg2, Bool.false_eq_true, ite_false] at h
      rcases registration_gate_spec sb st regLogs with hg | ⟨e, hmem, hg⟩
      · rw [hg] at h
        simp only [hreg2, Bool.false_eq_true, ite_true, eq_self_iff_true,
          Option.map_eq_some'] at h
        obtain ⟨r2, hrec, hres⟩ := h
        subst hres
        intro c hc
        simp only [List.cons_append, List.nil_append, List.mem_cons] at hc
        rcases hc with hc | hc
        · exact hc
        · exact events_listener_gate_cursors cfg sb rest st r2 hrec c hc
      · rw [hg] at h
        simp only [ite_true, ite_false, Bool.true_eq_false] at h
        cases de with
        | none =>
          dsimp only at h
          simp only [Option.map_eq_some'] at h
          obtain ⟨r2, hrec, hres⟩ := h
          subst hres
          intro c hc
          simp only [List.cons_append, List.nil_append, List.mem_cons] at hc
          rcases hc with hc | hc
          · exact hc
          · rw [events_listener_registered_no_gate cfg sb rest _ r2 rfl hrec]
              at hc
            exact absurd hc (List.not_mem_nil c)
        | some events =>
          dsimp only at h
          cases hh : handle_event_logs cfg
              { st with enclave_registered := true, last_block_seen := e.block_number.getD sb }
              events with
          | none =>
            rw [hh] at h
            exact Option.noConfusion h
          | some lr =>
            rw [hh] at h
            by_cases hlr : lr.state.enclave_registered = true
            · simp only [hlr, ite_true, Option.map_eq_some'] at h
              obtain ⟨r2, hrec, hres⟩ := h
              subst hres
              intro c hc
              simp only [List.cons_append, List.nil_append, List.mem_cons] at hc
              rcases hc with hc | hc
              · exact hc
              · rw [events_listener_registered_no_gate cfg sb rest _ r2 hlr
                  hrec] at hc
                exact absurd hc (List.not_mem_nil c)
            · have hlr2 : lr.state.enclave_registered = false := by
                cases hb : lr.state.enclave_registered
                · rfl
                · exact absurd hb hlr
              simp only [hlr2, Bool.false_eq_true, ite_false,
                Option.some.injEq] at h
              subst h
              intro c hc
              simp only [List.mem_singleton] at hc
              exact hc

/-! ## Claim C6 -/

/-- C6: whenever the registration gate runs, the filter it subscribes with
is scoped to the Executors contract address, the `ExecutorRegistered`
signature, the node's own enclave address (topic 1) and the current owner
value (topic 2), and its lower block bound equals the value the resume
cursor holds at that moment.  (The caller is spec-modelled as passing
`starting_block` equal to the cursor; within a listener run the cursor is
never written before a gate run.) -/
theorem register_filter_at_cursor
    (cfg : Config) (sb : Nat) (st : ListenerState)
    (attempts : List ConnAttempt) (res : RunResult)
    (hok : listener_invocation_ok st sb)
    (h : events_listener cfg sb st attempts = some res) :
    ∀ c ∈ res.gate_cursors,
      register_executor_filter cfg sb =
        { address := cfg.executors_contract_addr
          topic0 := [executorRegisteredSig]
          topic1 := some cfg.enclave_address
          topic2 := some cfg.enclave_owner
          from_block := c } := by
  intro c hc
  have hcs := events_listener_gate_cursors cfg sb attempts st res h c hc
  rw [register_executor_filter, hcs, hok]

/-- An unregistered initial state with cursor 0 and no tracked jobs. -/
def stUnregW : ListenerState :=
  { enclave_registered := false
    last_block_seen := 0
    job_requests_running := ∅ }

/-- A non-removed `ExecutorRegistered` log at block 4. -/
def regLogW : Log :=
  { removed := some false
    block_number := some 4
    topics := [executorRegisteredSig]
    data := [] }

/-- Witness for C6 at a concrete run whose gate registers off `regLogW`. -/
theorem register_filter_at_cursor_witness :
    register_executor_filter cfgW 0 =
      { address := cfgW.executors_contract_addr
        topic0 := [executorRegisteredSig]
        topic1 := some cfgW.enclave_address
        topic2 := some cfgW.enclave_owner
        from_block := 0 } :=
  register_filter_at_cursor cfgW 0 stUnregW
    [ConnAttempt.conn [regLogW] (some [])]
    ⟨{ enclave_registered := true, last_block_seen := 4, job_requests_running := ∅ },
     [], [4], [0], false⟩
    rfl (by decide) 0 (by decide)

/-! ## Claim C3 -/

/-- The sequence of cursor writes of any supervisor run is a non-decreasing
chain from the initial cursor, provided the caller starts no further than
the filters' lower bound while unregistered and the log source honours that
bound for registration logs. -/
theorem events_listener_writes (cfg : Config) (sb : Nat) :
    ∀ (attempts : List ConnAttempt) (st : ListenerState) (res : RunResult),
      (st.enclave_registered = false → st.last_block_seen ≤ sb) →
      attempts.all (attempt_respects_from_block sb) = true →
      events_listener cfg sb st attempts = some res →
      List.Chain (· ≤ ·) st.last_block_seen res.cursor_writes
  | [], st, res, _, _, h => by
    injection h with h
    subst h
    exact List.Chain.nil
  | ConnAttempt.connectFail :: rest, st, res, hinv, hall, h => by
    simp only [events_listener] at h
    simp only [List.all_cons, Bool.and_eq_true] at hall
    exact events_listener_writes cfg sb rest st res hinv hall.2 h
  | ConnAttempt.conn regLogs de :: rest, st, res, hinv, hall, h => by
    simp only [List.all_cons, Bool.and_eq_true, attempt_respects_from_block]
      at hall
    by_cases hreg : st.enclave_registered = true
    · simp only [events_listener, hreg, ite_true, Bool.true_eq_false,
        ite_false] at h
      cases de with
      | none =>
        dsimp only at h
        simp only [Option.map_eq_some'] at h
        obtain ⟨r2, hrec, hres⟩ := h
        subst hres
        simp only [List.nil_append]
        exact events_listener_writes cfg sb rest st r2
          (fun hx => absurd hx (by simp [hreg])) hall.2 hrec
      | some events =>
        dsimp only at h
        cases hh : handle_event_logs cfg st events with
        | none =>
          rw [hh] at h
          exact Option.noConfusion h
        | some lr =>
          rw [hh] at h
          have hw := handle_event_logs_writes cfg events st lr hh
          by_cases hlr : lr.state.enclave_registered = true
          · simp only [hlr, ite_true, Option.map_eq_some'] at h
            obtain ⟨r2, hrec, hres⟩ := h
            subst hres
            simp only [List.nil_append]
            refine chain_append_getLastD _ _ _ hw.1 ?_
            rw [← hw.2]
            exact events_listener_writes cfg sb rest lr.state r2
              (fun hx => absurd hx (by simp [hlr])) hall.2 hrec
          · have hlr2 : lr.state.enclave_registered = false := by
              cases hb : lr.state.enclave_registered
              · rfl
              · exact absurd hb hlr
            simp only [hlr2, Bool.false_eq_true, ite_false,
              Option.some.injEq] at h
            subst h
            simp only [List.nil_append]
            exact hw.1
    · have hreg2 : st.enclave_registered = false := by
        cases hb : st.enclave_registered
        · rfl
        · exact absurd hb hreg
      simp only [events_listener, hreg2, Bool.false_eq_true, ite_false] at h
      rcases registration_gate_spec sb st regLogs with hg | ⟨e, hmem, hg⟩
      · rw [hg] at h
        simp only [hreg2, Bool.false_eq_true, ite_true,
          Option.map_eq_some'] at h
        obtain ⟨r2, hrec, hres⟩ := h
        subst hres
        simp only [List.nil_append]
        exact events_listener_writes cfg sb rest st r2 hinv hall.2 hrec
      · rw [hg] at h
        have hv : st.last_block_seen ≤ e.block_number.getD sb := by
          have h1 : st.last_block_seen ≤ sb := hinv hreg2
          have h2 : log_respects_from_block sb e = true :=
            List.all_eq_true.mp hall.1 e hmem
          cases hb : e.block_number with
          | none => simpa using h1
          | some b =>
            simp only [log_respects_from_block, hb,
              decide_eq_true_eq] at h2
            simp only [hb, Option.getD_some]
            omega
        simp only [ite_false, ite_true, Bool.true_eq_false] at h
        cases de with
        | none =>
          dsimp only at h
          simp only [Option.map_eq_some'] at h
          obtain ⟨r2, hrec, hres⟩ := h
          subst hres
          simp only [List.singleton_append]
          refine List.chain_cons.mpr ⟨hv, ?_⟩
          exact events_listener_writes cfg sb rest _ r2
            (fun hx => Bool.noConfusion hx) hall.2 hrec
        | some events =>
          dsimp only at h
          cases hh : handle_event_logs cfg
              { st with enclave_registered := true, last_block_seen := e.block_number.getD sb }
              events with
          | none =>
            rw [hh] at h
            exact Option.noConfusion h
          | some lr =>
            rw [hh] at h
            have hw := handle_event_logs_writes cfg events _ lr hh
            dsimp only at hw
            by_cases hlr : lr.state.enclave_registered = true
            · simp only [hlr, ite_true, Option.map_eq_some'] at h
              obtain ⟨r2, hrec, hres⟩ := h
              subst hres
              simp only [List.cons_append, List.nil_append]
              refine List.chain_cons.mpr ⟨hv, ?_⟩
              refine chain_append_getLastD _ _ _ hw.1 ?_
              rw [← hw.2]
              exact events_listener_writes cfg sb rest lr.state r2
                (fun hx => absurd hx (by simp [hlr])) hall.2 hrec
            · have hlr2 : lr.state.enclave_registered = false := by
                cases hb : lr.state.enclave_registered
                · rfl
                · exact absurd hb hlr
              simp only [hlr2, Bool.false_eq_true, ite_false,
                Option.some.injEq] at h
              subst h
              simp only [List.singleton_append]
              exact List.chain_cons.mpr ⟨hv, hw.1⟩

/-- C3: the resume cursor never decreases — along any supervisor run
(registration gate and event dispatcher, across any number of reconnects)
the sequence of values stored to `last_block_seen` forms a non-decreasing
chain starting from the cursor's initial value.  In the dispatcher this
follows from discarding any job-lifecycle event whose block number is below
the cursor before storing it; for the gate it uses the spec-modelled caller
(`starting_block` equals the initial cursor) and the log source honouring
the registration filter's lower bound. -/
theorem resume_cursor_monotone
    (cfg : Config) (sb : Nat) (st : ListenerState)
    (attempts : List ConnAttempt) (res : RunResult)
    (hok : listener_invocation_ok st sb)
    (hresp : attempts.all (attempt_respects_from_block sb) = true)
    (h : events_listener cfg sb st attempts = some res) :
    List.Chain (· ≤ ·) st.last_block_seen res.cursor_writes :=
  events_listener_writes cfg sb attempts st res (fun _ => le_of_eq hok)
    hresp h

/-- Witness run for C3: register at block 4, then settle job 1 at block 6;
the cursor writes are the chain 0 ≤ 4 ≤ 6. -/
theorem resume_cursor_monotone_witness :
    List.Chain (· ≤ ·) stUnregW.last_block_seen [4, 6] :=
  resume_cursor_monotone cfgW 0 stUnregW
    [ConnAttempt.conn [regLogW] (some [StreamEvent.jobs jobRespondedLogW])]
    ⟨{ enclave_registered := true, last_block_seen := 6, job_requests_running := (∅ : Finset Nat).erase 1 },
     [], [4, 6], [0], false⟩
    rfl (by decide) (by decide)

end Serverless
